import Mathlib

/-!
Verification development for the commit-log provider of the repository
(`CommitsGitSubProvider`): an incremental remote-history engine that builds
insertion-ordered commit logs from paginated remote pages, merges further
pages via `more()` continuations, serves narrower queries from a per-document
cache, and classifies two-revision comparisons.

Remote I/O (the GitHub client, repository context, document tracker) is
modelled by explicit oracle parameters: each embedded operation takes the
outcome of its remote call as an input and reports whether the call was
issued.  JavaScript `Map`s are modelled as insertion-ordered association
lists with `Map.set` semantics (an existing key keeps its position and has
its value replaced; a new key is appended).
-/

/-- Insertion-ordered string-keyed mapping, modelling a JavaScript `Map`. -/
abbrev JsMap (α : Type) := List (String × α)

/-- JavaScript `Map.prototype.set`: replace the value of an existing key in
place (keeping its insertion position), otherwise append the new entry. -/
def JsMap.set {α : Type} : JsMap α → String → α → JsMap α
  | [], key, value => [(key, value)]
  | (k, v) :: rest, key, value =>
    if k == key then (key, value) :: rest else (k, v) :: JsMap.set rest key value

/-- JavaScript `Map.prototype.has`. -/
def JsMap.has {α : Type} (m : JsMap α) (key : String) : Bool :=
  m.any (fun e => e.1 == key)

/-- JavaScript `Map.prototype.get`. -/
def JsMap.get {α : Type} (m : JsMap α) (key : String) : Option α :=
  (m.find? (fun e => e.1 == key)).map Prod.snd

/-- JavaScript `new Map(entries)`: insert every pair in order with `set`. -/
def JsMap.ofList {α : Type} (entries : List (String × α)) : JsMap α :=
  entries.foldl (fun m e => JsMap.set m e.1 e.2) []

/-- The keys of a map in insertion order. -/
def JsMap.keys {α : Type} (m : JsMap α) : List String :=
  m.map Prod.fst

/-- `GitCommitIdentity`: an author or committer identity. -/
structure GitCommitIdentity where
  name : String
  email : Option String
  date : Int
  avatarUrl : Option String := none
deriving DecidableEq, Repr

/-- Commit-level change statistics (`{files, additions, deletions}`). -/
structure CommitStats where
  files : Nat
  additions : Nat
  deletions : Nat
deriving DecidableEq, Repr

/-- `GitCommit`: the normalized in-memory commit model built by the provider
(file-change details, which no claim observes, are elided). -/
structure GitCommit where
  repoPath : String
  sha : String
  author : GitCommitIdentity
  committer : GitCommitIdentity
  summary : String
  parents : List String
  message : String
  stats : CommitStats
deriving DecidableEq, Repr

/-- `GitCommit.ref` is the commit's revision identifier (its sha). -/
def GitCommit.ref (c : GitCommit) : String := c.sha

/-- A raw author/committer record as returned by the remote API. -/
structure RawIdentity where
  name : String
  email : Option String
  date : Int
  avatarUrl : Option String := none
deriving DecidableEq, Repr

/-- A raw commit record as returned by the remote API (`result.values[i]`). -/
structure RawCommit where
  oid : String
  author : RawIdentity
  committer : RawIdentity
  message : String
  parents : List String
  changedFiles : Option Nat := none
  additions : Option Nat := none
  deletions : Option Nat := none
deriving DecidableEq, Repr

/-- Paging metadata of a remote commits page (`result.paging`). -/
structure PagingInfo where
  more : Option Bool := none
  cursor : Option String := none
deriving DecidableEq, Repr

/-- A remote commits page (`github.getCommits` result); `viewer` is the
resolved viewer label (defaulted to the session account label). -/
structure CommitsPage where
  viewer : Option String := none
  values : List RawCommit
  paging : Option PagingInfo := none
deriving DecidableEq, Repr

/-- Options accepted by `getLog`. -/
structure GitLogOptions where
  all : Bool := false
  authors : Option (List String) := none
  cursor : Option String := none
  limit : Option Nat := none
  since : Option String := none
deriving DecidableEq, Repr

/-- `GitLog`: the provider's log model.  `moreAttached` records whether the
`more()` continuation is present on the object. -/
structure GitLog where
  repoPath : String
  commits : JsMap GitCommit
  sha : Option String
  count : Nat
  limit : Option Nat
  hasMore : Bool
  startingCursor : Option String := none
  endingCursor : Option String := none
  moreAttached : Bool := false
deriving DecidableEq, Repr

/-- The spec's `Log` invariants: `count == commits.size`, no id appears
twice, and `hasMore == false` implies `more` is absent. -/
def logInvariant (log : GitLog) : Prop :=
  log.count = log.commits.length
    ∧ (log.commits.map Prod.fst).Nodup
    ∧ (log.hasMore = false → log.moreAttached = false)

/-- Modelled from the spec: `provider.getPagingLimit` (defined outside the
provided sources) clamps the caller-chosen page size to the provider's
paging-limit policy, returning the provider maximum when no size is given. -/
def getPagingLimit (cap : Nat) (limit : Option Nat) : Nat :=
  min cap (limit.getD cap)

/-- Construction of one `GitCommit` from a raw record in the `getLog` loop:
viewer-relative name substitution, first message line as summary, and
defaulted change statistics. -/
def mkCommit (repoPath : String) (viewer : Option String) (commit : RawCommit) : GitCommit :=
  let authorName := match viewer with
    | some v => if commit.author.name == v then "You" else commit.author.name
    | none => commit.author.name
  let committerName := match viewer with
    | some v => if commit.committer.name == v then "You" else commit.committer.name
    | none => commit.committer.name
  { repoPath := repoPath
    sha := commit.oid
    author := { name := authorName, email := commit.author.email, date := commit.author.date,
                avatarUrl := commit.author.avatarUrl }
    committer := { name := committerName, email := commit.committer.email,
                   date := commit.committer.date, avatarUrl := none }
    summary := commit.message.takeWhile (fun ch => ch != '\n')
    parents := commit.parents
    message := commit.message
    stats := { files := commit.changedFiles.getD 0, additions := commit.additions.getD 0,
               deletions := commit.deletions.getD 0 } }

/-- The commit-map build loop shared by `getLog`, `getLogForPathCore` and
`searchCommits`: walk the raw records in order, keeping the first record for
each id (`if (c == null) { ...; commits.set(oid, c) }`). -/
def buildCommitMap (repoPath : String) (viewer : Option String)
    (values : List RawCommit) : JsMap GitCommit :=
  values.foldl
    (fun commits commit =>
      match JsMap.get commits commit.oid with
      | some _ => commits
      | none => JsMap.set commits commit.oid (mkCommit repoPath viewer commit))
    []

/-- `getLog`: build a `GitLog` from one remote page.  The remote call (and
everything inside the `try`) is modelled by `outcome`; an exception is caught
and converted to `undefined`.  `headRevision` is the resolved repository
revision used when `rev` is empty or `HEAD`. -/
def getLog (cap : Nat) (repoPath : Option String) (rev : Option String)
    (headRevision : String) (options : GitLogOptions)
    (outcome : Except String CommitsPage) : Option GitLog :=
  match repoPath with
  | none => none
  | some repoPath =>
    let limit := getPagingLimit cap options.limit
    match outcome with
    | .error _ => none
    | .ok result =>
      let rev := match rev with
        | none => headRevision
        | some r => if r = "" ∨ r = "HEAD" then headRevision else r
      let commits := buildCommitMap repoPath result.viewer result.values
      let hasMore := (result.paging.bind PagingInfo.more).getD false
      some { repoPath := repoPath, commits := commits, sha := some rev,
             count := commits.length, limit := some limit, hasMore := hasMore,
             startingCursor := none, endingCursor := result.paging.bind PagingInfo.cursor,
             moreAttached := hasMore }

/-- The argument of a `more()` continuation: `number | {until} | undefined`. -/
inductive MoreArg where
  | noArg
  | num (n : Nat)
  | untilId (u : String)
deriving DecidableEq, Repr

/-- `limit.until` when the argument is an object, else `undefined`. -/
def MoreArg.untilId? : MoreArg → Option String
  | .untilId u => some u
  | _ => none

/-- The numeric argument when one was given, else `undefined`. -/
def MoreArg.num? : MoreArg → Option Nat
  | .num n => some n
  | _ => none

/-- The short-circuit guard of both `more()` bodies:
`moreUntil && some(log.commits.values(), c => c.ref === moreUntil)`
(note the JavaScript truthiness test on the `until` string). -/
def moreUntilSatisfied (log : GitLog) (arg : MoreArg) : Bool :=
  match arg.untilId? with
  | some u => !(u == "") && log.commits.any (fun e => e.2.ref == u)
  | none => false

/-- The body of the continuation produced by `getLogMoreFn`.  `fetch` models
the recursive `getLog` call (given the clamped page size and the prior log's
ending cursor); the returned flag records whether that call was issued. -/
def getLogMoreBody (cap : Nat) (log : GitLog) (arg : MoreArg)
    (fetch : Nat → Option String → Option GitLog) : GitLog × Bool :=
  if moreUntilSatisfied log arg then (log, false)
  else
    let moreLimit := getPagingLimit cap arg.num?
    match fetch moreLimit log.endingCursor with
    | none => ({ log with hasMore := false, moreAttached := false }, true)
    | some moreLog =>
      let commits := JsMap.ofList (log.commits ++ moreLog.commits)
      let hasMore := match arg.untilId? with
        | none => moreLog.hasMore
        | some _ => true
      ({ repoPath := log.repoPath, commits := commits, sha := log.sha,
         count := commits.length,
         limit := match arg.untilId? with
           | none => some (log.limit.getD 0 + moreLimit)
           | some _ => none,
         hasMore := hasMore,
         startingCursor := (log.commits.getLast?).map Prod.fst,
         endingCursor := moreLog.endingCursor,
         moreAttached := hasMore }, true)

/-- The body of the continuation produced by `getLogForPathMoreFn`: like
`getLogMoreFn` but the fetch is asked for `0` items when an `until` boundary
was requested, and no `startingCursor` is recorded. -/
def getLogForPathMoreBody (cap : Nat) (log : GitLog) (arg : MoreArg)
    (fetch : Nat → Option String → Option GitLog) : GitLog × Bool :=
  if moreUntilSatisfied log arg then (log, false)
  else
    let moreLimit := getPagingLimit cap arg.num?
    match fetch (match arg.untilId? with | none => moreLimit | some _ => 0)
        log.endingCursor with
    | none => ({ log with hasMore := false, moreAttached := false }, true)
    | some moreLog =>
      let commits := JsMap.ofList (log.commits ++ moreLog.commits)
      let hasMore := match arg.untilId? with
        | none => moreLog.hasMore
        | some _ => true
      ({ repoPath := log.repoPath, commits := commits, sha := log.sha,
         count := commits.length,
         limit := match arg.untilId? with
           | none => some (log.limit.getD 0 + moreLimit)
           | some _ => none,
         hasMore := hasMore,
         startingCursor := none,
         endingCursor := moreLog.endingCursor,
         moreAttached := hasMore }, true)

/-- Options accepted by `getLogForPath`.  `filters` and `range` are opaque to
the claims and modelled by option-valued placeholders; `merges` carries the
string rendering of its `boolean | 'first-parent'` value. -/
structure GitLogForPathOptions where
  all : Bool := false
  authors : Option (List String) := none
  cursor : Option String := none
  filters : Option (List String) := none
  isFolder : Option Bool := none
  limit : Option Nat := none
  merges : Option String := none
  ordering : Option String := none
  range : Option (String × String) := none
  renames : Bool := false
  since : Option String := none
  untilRev : Option String := none
deriving DecidableEq, Repr

/-- The option normalization at the top of `getLogForPath`:
`{...options, all: false, limit: getPagingLimit(options?.limit), renames: false}`. -/
def effectiveLogForPathOptions (cap : Nat) (o : GitLogForPathOptions) : GitLogForPathOptions :=
  { o with all := false, limit := some (getPagingLimit cap o.limit), renames := false }

/-- Modelled from the spec: `isFolderGlob` (a path utility outside the
provided sources) recognizes a path whose final segment is the glob `*`. -/
def isFolderGlob (path : String) : Bool :=
  path == "*" || path.data.reverse.take 2 == ['*', '/']

/-- Modelled from the spec: `stripFolderGlob` removes the trailing glob
segment recognized by `isFolderGlob`. -/
def stripFolderGlob (path : String) : String :=
  if isFolderGlob path then String.mk (path.data.take (path.data.length - 2)) else path

/-- The folder handling of `getLogForPath`: a folder glob forces
`isFolder = true`; otherwise an unspecified `isFolder` is resolved from the
tree entry of the revision (`tree?.type === 'tree'`), modelled by the
`treeEntryType` oracle. -/
def adjustedLogForPathOptions (cap : Nat) (relativePath : String)
    (treeEntryType : Option String) (o : GitLogForPathOptions) : GitLogForPathOptions :=
  let options := effectiveLogForPathOptions cap o
  if isFolderGlob relativePath then { options with isFolder := some true }
  else if options.isFolder = none then
    { options with isFolder := some (treeEntryType == some "tree") }
  else options

/-- `advanced.caching.enabled` is hard-wired on in the source. -/
def useCaching : Bool := true

/-- The cache fingerprint built by `getLogForPath` for a cacheable query. -/
def logForPathCacheKey (rev : Option String) (options : GitLogForPathOptions) : String :=
  let key := "log"
  let key := match rev with
    | some r => key ++ ":" ++ r
    | none => key
  let key := if options.all then key ++ ":all" else key
  let key := match options.limit with
    | some n => if n ≠ 0 then key ++ ":n" ++ toString n else key
    | none => key
  let key := match options.merges with
    | some m => if m ≠ "" then key ++ ":merges=" ++ m else key
    | none => key
  let key := match options.ordering with
    | some o => if o ≠ "" then key ++ ":ordering=" ++ o else key
    | none => key
  if options.renames then key ++ ":follow" else key

/-- The key of the whole-file log consulted by the partial-reconstruction
path: `log` plus `:follow` when renames are requested. -/
def wholeFileCacheKey (renames : Bool) : String :=
  "log" ++ (if renames then ":follow" else "")

/-- A cache entry (`CachedLog`): the settled value of the cached future and
an optional failure message. -/
structure CachedLog where
  item : Option GitLog
  errorMessage : Option String := none
deriving DecidableEq, Repr

/-- The per-document log cache (`GitDocumentState`). -/
abbrev GitDocumentState := JsMap CachedLog

/-- `emptyPromise`: the module-level already-resolved future for `undefined`,
used to negative-cache failed path-log fetches. -/
def emptyPromise : Option GitLog := none

/-- The stateful filter of the partial-reconstruction path: skip entries
until the requested revision is reached (inclusive), then keep entries while
the running index stays within `options.limit`. -/
def sliceEntries (rev : String) (limit : Option Nat) :
    List (String × GitCommit) → Bool → Nat → List (String × GitCommit)
  | [], _, _ => []
  | (sha, c) :: rest, skip, i =>
    if skip && !(sha == rev) then sliceEntries rev limit rest skip i
    else
      if (match limit with | some m => decide (i + 1 > m) | none => false) then
        sliceEntries rev limit rest false (i + 1)
      else (sha, c) :: sliceEntries rev limit rest false (i + 1)

/-- The copy of a cached whole-file log starting at the requested commit
(`log = {...log, limit, count: commits.size, commits}`). -/
def sliceLog (log : GitLog) (rev : String) (limit : Option Nat) : GitLog :=
  let commits := JsMap.ofList (sliceEntries rev limit log.commits true 0)
  { log with limit := limit, count := commits.length, commits := commits }

deriving instance DecidableEq for Except

/-- The instrumented outcome of a `getLogForPath` call: its settled result
(`.error` models the synchronous throw), the final document cache state, and
the options passed to `getLogForPathCore` when that fetch was issued. -/
structure PathLogOutcome where
  result : Except String (Option GitLog)
  state : Option GitDocumentState
  fetchedWith : Option GitLogForPathOptions
deriving DecidableEq, Repr

/-- The fetch-and-cache tail of `getLogForPath`: issue the core fetch; on
success store the pending future under the cache key; on rejection the catch
handler overwrites that entry with `emptyPromise` plus the failure's message
and resolves to `undefined`. -/
def getLogForPathFetch (key : Option String) (docState : Option GitDocumentState)
    (options : GitLogForPathOptions)
    (coreOutcome : Except String (Option GitLog)) : PathLogOutcome :=
  match key with
  | none =>
    match coreOutcome with
    | .ok v => { result := .ok v, state := docState, fetchedWith := some options }
    | .error _ => { result := .ok none, state := docState, fetchedWith := some options }
  | some key =>
    let st := docState.getD []
    match coreOutcome with
    | .ok v =>
      { result := .ok v, state := some (JsMap.set st key { item := v }),
        fetchedWith := some options }
    | .error msg =>
      let st := JsMap.set st key { item := emptyPromise }
      let st := JsMap.set st key { item := emptyPromise, errorMessage := some msg }
      { result := .ok none, state := some st, fetchedWith := some options }

/-- `getLogForPath`: raise on a path equal to the repository root, normalize
the options, compute the cache fingerprint for a cacheable query, serve an
exact cache hit, reconstruct a revision/limit-scoped answer from a cached
fully-fetched whole-file log, and otherwise fetch and cache.  `relativePath`
is the resolved relative path, `treeEntryType` the tree-entry oracle,
`docState` the tracked document's cache and `coreOutcome` the settled core
fetch. -/
def getLogForPath (cap : Nat) (repoPath : Option String) (relativePath : String)
    (rev : Option String) (options0 : GitLogForPathOptions)
    (treeEntryType : Option String) (docState : Option GitDocumentState)
    (coreOutcome : Except String (Option GitLog)) : PathLogOutcome :=
  match repoPath with
  | none => { result := .ok none, state := docState, fetchedWith := none }
  | some repoPath =>
    if repoPath == relativePath then
      { result := .error ("Path cannot match the repository path; path=" ++ relativePath),
        state := docState, fetchedWith := none }
    else
      let options := adjustedLogForPathOptions cap relativePath treeEntryType options0
      let cacheKey : Option String :=
        if useCaching = true ∧ options.isFolder ≠ some true ∧ options.authors = none
            ∧ options.cursor = none ∧ options.filters = none ∧ options.range = none
            ∧ options.since = none ∧ options.untilRev = none then
          some (logForPathCacheKey rev options)
        else none
      match cacheKey with
      | none => getLogForPathFetch none docState options coreOutcome
      | some key =>
        match docState with
        | none => getLogForPathFetch (some key) docState options coreOutcome
        | some state =>
          match JsMap.get state key with
          | some cachedLog =>
            { result := .ok cachedLog.item, state := docState, fetchedWith := none }
          | none =>
            if rev.isSome || options.limit.isSome then
              match JsMap.get state (wholeFileCacheKey options.renames) with
              | none => getLogForPathFetch (some key) docState options coreOutcome
              | some cachedLog =>
                match rev with
                | none =>
                  { result := .ok cachedLog.item, state := docState, fetchedWith := none }
                | some r =>
                  match cachedLog.item with
                  | none => getLogForPathFetch (some key) docState options coreOutcome
                  | some log =>
                    if !log.hasMore && JsMap.has log.commits r then
                      { result := .ok (some (sliceLog log r options.limit)),
                        state := docState, fetchedWith := none }
                    else getLogForPathFetch (some key) docState options coreOutcome
            else getLogForPathFetch (some key) docState options coreOutcome

/-- `getLogForPathCore`: build the path-scoped log from one remote page.
Exceptions propagate to `getLogForPath`'s catch handler (no `try` here);
`outcome` models the remote page fetch. -/
def getLogForPathCore (cap : Nat) (repoPath : Option String) (rev : Option String)
    (headRevision : String) (options : GitLogForPathOptions)
    (outcome : Except String CommitsPage) : Except String (Option GitLog) :=
  match repoPath with
  | none => .ok none
  | some repoPath =>
    let limit := getPagingLimit cap options.limit
    match outcome with
    | .error msg => .error msg
    | .ok result =>
      let rev := match rev with
        | none => headRevision
        | some r => if r = "" ∨ r = "HEAD" then headRevision else r
      let commits := buildCommitMap repoPath result.viewer result.values
      let hasMore := (result.paging.bind PagingInfo.more).getD false
      .ok (some { repoPath := repoPath, commits := commits, sha := some rev,
                  count := commits.length, limit := some limit, hasMore := hasMore,
                  startingCursor := none,
                  endingCursor := result.paging.bind PagingInfo.cursor,
                  moreAttached := hasMore })

/-- Page metadata of a commit-search result (`result.pageInfo`). -/
structure SearchPageInfo where
  hasNextPage : Bool
  endCursor : Option String := none
deriving DecidableEq, Repr

/-- A remote commit-search page (`github.searchCommits` result). -/
structure SearchPage where
  values : List RawCommit
  pageInfo : Option SearchPageInfo := none
deriving DecidableEq, Repr

/-- The single-commit log returned by `searchCommits` for a `commit:`
operation. -/
def searchSingleCommitLog (repoPath : String) (commit : GitCommit) : GitLog :=
  { repoPath := repoPath, commits := [(commit.sha, commit)], sha := some commit.sha,
    count := 1, limit := some 1, hasMore := false,
    startingCursor := none, endingCursor := none, moreAttached := false }

/-- The log built by `searchCommits` from one search page (the viewer label
comes from the session account). -/
def searchCommitsLog (repoPath : String) (viewerLabel : String) (limit : Nat)
    (result : SearchPage) : GitLog :=
  let commits := buildCommitMap repoPath (some viewerLabel) result.values
  let hasMore := (result.pageInfo.map SearchPageInfo.hasNextPage).getD false
  { repoPath := repoPath, commits := commits, sha := none, count := commits.length,
    limit := some limit, hasMore := hasMore, startingCursor := none,
    endingCursor := result.pageInfo.bind SearchPageInfo.endCursor,
    moreAttached := hasMore }

/-- The body of the continuation attached by `searchCommits`
(`searchCommitsCore`): merge one further search page; the page-size budget
always accumulates. -/
def searchCommitsMoreBody (cap : Nat) (log : GitLog) (limitArg : Option Nat)
    (fetch : Nat → Option String → Option GitLog) : GitLog × Bool :=
  let limit := getPagingLimit cap limitArg
  match fetch limit log.endingCursor with
  | none => ({ log with hasMore := false, moreAttached := false }, true)
  | some moreLog =>
    let commits := JsMap.ofList (log.commits ++ moreLog.commits)
    ({ repoPath := log.repoPath, commits := commits, sha := log.sha,
       count := commits.length, limit := some (log.limit.getD 0 + limit),
       hasMore := moreLog.hasMore, startingCursor := none,
       endingCursor := moreLog.endingCursor,
       moreAttached := moreLog.hasMore }, true)

/-- A two-revision comparison result (`github.getComparison`). -/
structure GitComparisonResult where
  status : String
  aheadBy : Nat := 0
  behindBy : Nat := 0
deriving DecidableEq, Repr

/-- `isAncestorOf`: classify the comparison outcome into a boolean;
`outcome` models the `getComparison` call (`.error` is the caught
exception, `.ok none` an absent result). -/
def isAncestorOf (repoPath : Option String)
    (outcome : Except String (Option GitComparisonResult)) : Bool :=
  match repoPath with
  | none => false
  | some _ =>
    match outcome with
    | .error _ => false
    | .ok result =>
      let status := result.map GitComparisonResult.status
      if status = some "ahead" ∨ status = some "diverged" then false
      else if status = some "identical" ∨ status = some "behind" then true
      else false

/-- A concrete identity used by the concrete evaluation instances below. -/
def exIdentity (name : String) : GitCommitIdentity :=
  { name := name, email := none, date := 0 }

/-- A concrete commit with a chosen sha and author name. -/
def exCommit (sha : String) (authorName : String) : GitCommit :=
  { repoPath := "github/repo", sha := sha, author := exIdentity authorName,
    committer := exIdentity authorName, summary := "", parents := [], message := "",
    stats := { files := 0, additions := 0, deletions := 0 } }

/-- A fully fetched five-commit whole-file log (newest first). -/
def exWholeFileLog : GitLog :=
  { repoPath := "github/repo",
    commits := [("c5", exCommit "c5" "A"), ("c4", exCommit "c4" "A"),
                ("c3", exCommit "c3" "A"), ("c2", exCommit "c2" "A"),
                ("c1", exCommit "c1" "A")],
    sha := some "main", count := 5, limit := some 25, hasMore := false,
    startingCursor := none, endingCursor := none, moreAttached := false }

/-- A document cache holding `exWholeFileLog` under the whole-file key. -/
def exDocState : GitDocumentState :=
  [("log", { item := some exWholeFileLog })]

/-- A three-commit first page whose last id overlaps the next page. -/
def exPriorLog : GitLog :=
  { repoPath := "github/repo",
    commits := [("a", exCommit "a" "A"), ("b", exCommit "b" "A"),
                ("c", exCommit "c" "PageOne")],
    sha := some "main", count := 3, limit := some 3, hasMore := true,
    startingCursor := none, endingCursor := some "cur1", moreAttached := true }

/-- The overlapping next page: `c` re-appears with a different entry. -/
def exNextLog : GitLog :=
  { repoPath := "github/repo",
    commits := [("c", exCommit "c" "PageTwo"), ("d", exCommit "d" "A"),
                ("e", exCommit "e" "A")],
    sha := some "main", count := 3, limit := some 3, hasMore := false,
    startingCursor := none, endingCursor := some "cur2", moreAttached := false }

/-- A fetch oracle that always returns `exNextLog`. -/
def exFetchNext : Nat → Option String → Option GitLog := fun _ _ => some exNextLog

/-- A log holding a commit whose id is the empty string. -/
def exEmptyIdLog : GitLog :=
  { repoPath := "github/repo", commits := [("", exCommit "" "A")],
    sha := some "main", count := 1, limit := some 1, hasMore := true,
    startingCursor := none, endingCursor := some "cur1", moreAttached := true }

/-- A fetch oracle that always fails (`getLog` resolved to `undefined`). -/
def exFetchNone : Nat → Option String → Option GitLog := fun _ _ => none

/-- A one-commit log with an ending cursor and a page-size budget of 2. -/
def exSmallLog : GitLog :=
  { repoPath := "github/repo", commits := [("a", exCommit "a" "A")],
    sha := some "main", count := 1, limit := some 2, hasMore := true,
    startingCursor := none, endingCursor := some "cur", moreAttached := true }

/-- A successfully fetched page holding no commits at all. -/
def exEmptyPageLog : GitLog :=
  { repoPath := "github/repo", commits := [], sha := some "main", count := 0,
    limit := some 25, hasMore := false, startingCursor := none,
    endingCursor := none, moreAttached := false }

/-- A fetch oracle that succeeds with the empty page. -/
def exFetchEmptyPage : Nat → Option String → Option GitLog := fun _ _ => some exEmptyPageLog

/-- Setting a key makes it retrievable with its new value. -/
theorem JsMap.get_set_self {α : Type} (m : JsMap α) (k : String) (v : α) :
    JsMap.get (JsMap.set m k v) k = some v := by
  induction m with
  | nil => simp [JsMap.set, JsMap.get]
  | cons e rest ih =>
    obtain ⟨k', v'⟩ := e
    cases hk : (k' == k) with
    | true => simp [JsMap.set, hk, JsMap.get]
    | false =>
      simp only [JsMap.set, hk, Bool.false_eq_true, if_false]
      simpa [JsMap.get, List.find?, hk] using ih

/-- A key of `m.set k v` is a key of `m` or is `k`. -/
theorem JsMap.mem_keys_set {α : Type} (m : JsMap α) (k : String) (v : α) (x : String) :
    x ∈ (JsMap.set m k v).map Prod.fst → x ∈ m.map Prod.fst ∨ x = k := by
  induction m with
  | nil => simp [JsMap.set]
  | cons e rest ih =>
    obtain ⟨k', v'⟩ := e
    cases hk : (k' == k) with
    | true =>
      have hk' : k' = k := by simpa using hk
      simp [JsMap.set, hk, hk']
      rintro (h | h)
      · exact Or.inr h
      · exact Or.inl (Or.inr h)
    | false =>
      simp only [JsMap.set, hk, Bool.false_eq_true, if_false, List.map_cons, List.mem_cons]
      rintro (h | h)
      · exact Or.inl (Or.inl h)
      · rcases ih h with h' | h'
        · exact Or.inl (Or.inr h')
        · exact Or.inr h'

/-- `Map.set` preserves key distinctness. -/
theorem JsMap.nodup_keys_set {α : Type} (m : JsMap α) (k : String) (v : α)
    (h : (m.map Prod.fst).Nodup) : ((JsMap.set m k v).map Prod.fst).Nodup := by
  induction m with
  | nil => simp [JsMap.set]
  | cons e rest ih =>
    obtain ⟨k', v'⟩ := e
    simp only [List.map_cons, List.nodup_cons] at h
    cases hk : (k' == k) with
    | true =>
      have hk' : k' = k := by simpa using hk
      simp only [JsMap.set, hk, if_true, List.map_cons, List.nodup_cons]
      exact ⟨by simpa [hk'] using h.1, h.2⟩
    | false =>
      have hk' : ¬(k' = k) := by simpa using hk
      simp only [JsMap.set, hk, Bool.false_eq_true, if_false, List.map_cons, List.nodup_cons]
      refine ⟨fun hmem => ?_, ih h.2⟩
      rcases JsMap.mem_keys_set rest k v k' hmem with h' | h'
      · exact h.1 h'
      · exact hk' h'

/-- Setting an absent key appends the entry. -/
theorem JsMap.set_eq_append {α : Type} (m : JsMap α) (k : String) (v : α)
    (h : JsMap.has m k = false) : JsMap.set m k v = m ++ [(k, v)] := by
  induction m with
  | nil => simp [JsMap.set]
  | cons e rest ih =>
    obtain ⟨k', v'⟩ := e
    simp only [JsMap.has, List.any_cons, Bool.or_eq_false_iff] at h
    simp only [JsMap.set, h.1, Bool.false_eq_true, if_false, List.cons_append]
    exact congrArg _ (ih (by simpa [JsMap.has] using h.2))

/-- Folding `Map.set` over any entry list preserves key distinctness. -/
theorem JsMap.nodup_keys_foldl_set {α : Type} (l : List (String × α)) :
    ∀ acc : JsMap α, (acc.map Prod.fst).Nodup →
      (((l.foldl (fun m e => JsMap.set m e.1 e.2) acc)).map Prod.fst).Nodup := by
  induction l with
  | nil => intro acc h; simpa using h
  | cons e rest ih =>
    intro acc h
    exact ih _ (JsMap.nodup_keys_set acc e.1 e.2 h)

/-- The keys of `new Map(entries)` are distinct. -/
theorem JsMap.nodup_keys_ofList {α : Type} (l : List (String × α)) :
    ((JsMap.ofList l).map Prod.fst).Nodup :=
  JsMap.nodup_keys_foldl_set l [] (by simp)

/-- Rebuilding a map from entries with distinct keys reproduces the list. -/
theorem JsMap.foldl_set_eq_append {α : Type} (l : List (String × α)) :
    ∀ acc : JsMap α, (((acc ++ l).map Prod.fst)).Nodup →
      l.foldl (fun m e => JsMap.set m e.1 e.2) acc = acc ++ l := by
  induction l with
  | nil => intro acc _; simp
  | cons e rest ih =>
    intro acc h
    obtain ⟨k, v⟩ := e
    have hk : JsMap.has acc k = false := by
      simp only [List.map_append, List.map_cons] at h
      have := (List.nodup_append.mp h).2.2
      simp only [JsMap.has, List.any_eq_false]
      intro p hp hpk
      have hkmem : k ∈ acc.map Prod.fst := by
        have : p.1 = k := by simpa using hpk
        exact this ▸ List.mem_map_of_mem Prod.fst hp
      exact absurd (List.mem_cons_self k _) (this hkmem)
    simp only [List.foldl_cons]
    rw [JsMap.set_eq_append acc k v hk]
    rw [ih (acc ++ [(k, v)]) (by simpa using h)]
    simp

/-- `JsMap.ofList` is the identity on entry lists with distinct keys. -/
theorem JsMap.ofList_eq_self {α : Type} (l : List (String × α))
    (h : (l.map Prod.fst).Nodup) : JsMap.ofList l = l := by
  simpa using JsMap.foldl_set_eq_append l [] (by simpa using h)

/-- The dedup-by-first-record build loop produces distinct keys. -/
theorem nodup_keys_buildCommitMap (repoPath : String) (viewer : Option String)
    (values : List RawCommit) :
    ((buildCommitMap repoPath viewer values).map Prod.fst).Nodup := by
  have aux : ∀ (vs : List RawCommit) (acc : JsMap GitCommit), (acc.map Prod.fst).Nodup →
      (((vs.foldl
        (fun commits commit =>
          match JsMap.get commits commit.oid with
          | some _ => commits
          | none => JsMap.set commits commit.oid (mkCommit repoPath viewer commit)) acc)).map
        Prod.fst).Nodup := by
    intro vs
    induction vs with
    | nil => intro acc h; simpa using h
    | cons c rest ih =>
      intro acc h
      simp only [List.foldl_cons]
      cases hget : JsMap.get acc c.oid with
      | some _ => simpa [hget] using ih acc h
      | none => simpa [hget] using ih _ (JsMap.nodup_keys_set acc c.oid _ h)
  exact aux values [] (by simp)

/-- Once the skip phase is over, the stateful filter keeps the next
`m - i` entries. -/
theorem sliceEntries_false_take (rev : String) (m : Nat) :
    ∀ (l : List (String × GitCommit)) (i : Nat),
      sliceEntries rev (some m) l false i = l.take (m - i) := by
  intro l
  induction l with
  | nil => intro i; simp [sliceEntries]
  | cons e rest ih =>
    intro i
    obtain ⟨sha, c⟩ := e
    by_cases hle : i + 1 > m
    · have h0 : m - i = 0 := by omega
      have h1 : m - (i + 1) = 0 := by omega
      simp [sliceEntries, hle, ih, h0, h1]
    · have h1 : m - i = (m - (i + 1)) + 1 := by omega
      simp [sliceEntries, hle, ih, h1]

/-- The skip phase of the stateful filter is `dropWhile` for the requested
revision. -/
theorem sliceEntries_skip (rev : String) (limit : Option Nat) :
    ∀ l : List (String × GitCommit),
      sliceEntries rev limit l true 0
        = sliceEntries rev limit (l.dropWhile (fun p => !(p.1 == rev))) false 0 := by
  intro l
  induction l with
  | nil => simp [sliceEntries]
  | cons e rest ih =>
    obtain ⟨sha, c⟩ := e
    cases hsha : (sha == rev) with
    | false => simpa [sliceEntries, hsha] using ih
    | true => simp [sliceEntries, hsha, List.dropWhile_cons]

/-- The partial-reconstruction filter returns the contiguous run that starts
at the requested revision and holds at most `m` entries. -/
theorem sliceEntries_eq_dropWhile_take (rev : String) (m : Nat)
    (l : List (String × GitCommit)) :
    sliceEntries rev (some m) l true 0
      = (l.dropWhile (fun p => !(p.1 == rev))).take m := by
  rw [sliceEntries_skip, sliceEntries_false_take]
  simp

/-- The sliced entry list is a sublist of the cached log's entry list. -/
theorem sliceEntries_sublist (rev : String) (m : Nat)
    (l : List (String × GitCommit)) :
    (sliceEntries rev (some m) l true 0).Sublist l := by
  rw [sliceEntries_eq_dropWhile_take]
  exact (List.take_sublist _ _).trans (List.dropWhile_sublist _)

/-- The slice of a log with distinct ids again has distinct ids, and the
rebuilt map is exactly the sliced entry list. -/
theorem ofList_sliceEntries_eq (rev : String) (m : Nat)
    (l : List (String × GitCommit)) (h : (l.map Prod.fst).Nodup) :
    JsMap.ofList (sliceEntries rev (some m) l true 0)
      = sliceEntries rev (some m) l true 0 :=
  JsMap.ofList_eq_self _ (h.sublist ((sliceEntries_sublist rev m l).map Prod.fst))

/-- C7: `isAncestorOf` answers true exactly when the comparison call
succeeded with a result whose status is `identical` or `behind`; `ahead`,
`diverged`, any other or absent status, and a failed comparison call all
yield false (fail-closed). -/
theorem spec_C7_ancestor_classification (repoPath : String)
    (outcome : Except String (Option GitComparisonResult)) :
    isAncestorOf (some repoPath) outcome = true
      ↔ ∃ r, outcome = .ok (some r)
          ∧ (r.status = "identical" ∨ r.status = "behind") := by
  cases outcome with
  | error e => simp [isAncestorOf]
  | ok result =>
    cases result with
    | none => simp [isAncestorOf]
    | some r =>
      by_cases h1 : r.status = "ahead" ∨ r.status = "diverged"
      · simp only [isAncestorOf, Option.map_some']
        rw [if_pos (by simpa using h1)]
        constructor
        · intro h; exact absurd h (by simp)
        · rintro ⟨r', hr', hstat⟩
          obtain rfl : r' = r := by simpa using hr'.symm
          rcases h1 with h1 | h1 <;> rcases hstat with h2 | h2 <;>
            simp [h1] at h2
      · by_cases h2 : r.status = "identical" ∨ r.status = "behind"
        · simp only [isAncestorOf, Option.map_some']
          rw [if_neg (by simpa using h1), if_pos (by simpa using h2)]
          simpa using h2
        · simp only [isAncestorOf, Option.map_some']
          rw [if_neg (by simpa using h1), if_neg (by simpa using h2)]
          constructor
          · intro h; exact absurd h (by simp)
          · rintro ⟨r', hr', hstat⟩
            obtain rfl : r' = r := by simpa using hr'.symm
            exact absurd hstat h2

/-- C9: a resolved relative path equal to the repository path makes
`getLogForPath` raise immediately: the error result is produced before any
cache access or fetch, the document state is untouched and no core fetch is
issued. -/
theorem spec_C9_path_equals_repo_throws (cap : Nat) (repoPath : String)
    (rev : Option String) (options : GitLogForPathOptions)
    (treeEntryType : Option String) (docState : Option GitDocumentState)
    (coreOutcome : Except String (Option GitLog)) :
    getLogForPath cap (some repoPath) repoPath rev options treeEntryType docState coreOutcome
      = { result := .error ("Path cannot match the repository path; path=" ++ repoPath),
          state := docState, fetchedWith := none } := by
  simp [getLogForPath]

/-- C3 counterexample: the empty-string id is falsy in JavaScript, so the
already-present guard (`if (moreUntil && ...)`) is skipped even though a
commit with that ref is in the log — the continuation issues a fetch and
does not return the log unchanged. -/
theorem spec_C3_until_idempotent_cex :
    (getLogMoreBody 100 exEmptyIdLog (MoreArg.untilId "") exFetchNone).2 = true
      ∧ getLogMoreBody 100 exEmptyIdLog (MoreArg.untilId "") exFetchNone
          ≠ (exEmptyIdLog, false) := by
  constructor
  · rfl
  · decide

/-- C3 (amended): for every nonempty id `u` carried by some commit of the
log, both `more({until: u})` continuations return the log unchanged and
issue no fetch. -/
theorem spec_C3_until_idempotent (cap : Nat) (log : GitLog) (u : String)
    (fetch fetchP : Nat → Option String → Option GitLog)
    (hu : u ≠ "")
    (hmem : log.commits.any (fun e => e.2.ref == u) = true) :
    getLogMoreBody cap log (MoreArg.untilId u) fetch = (log, false)
      ∧ getLogForPathMoreBody cap log (MoreArg.untilId u) fetchP = (log, false) := by
  have hsat : moreUntilSatisfied log (MoreArg.untilId u) = true := by
    simp [moreUntilSatisfied, MoreArg.untilId?, hmem, hu]
  exact ⟨by simp [getLogMoreBody, hsat], by simp [getLogForPathMoreBody, hsat]⟩

/-- C3 witness: a concrete log containing `c`; `more({until: c})` is the
identity on both continuations. -/
theorem spec_C3_until_idempotent_witness :
    getLogMoreBody 100 exPriorLog (MoreArg.untilId "c") exFetchNone = (exPriorLog, false)
      ∧ getLogForPathMoreBody 100 exPriorLog (MoreArg.untilId "c") exFetchNone
          = (exPriorLog, false) :=
  spec_C3_until_idempotent 100 exPriorLog "c" exFetchNone exFetchNone
    (by decide) (by decide)

/-- C4 counterexample: a successful fetch of an empty page is not
short-circuited — the merged log accumulates the page-size budget and renews
the cursors, so it differs from `{...log, hasMore: false, more: undefined}`. -/
theorem spec_C4_failed_fetch_cex :
    (getLogMoreBody 100 exSmallLog (MoreArg.num 1) exFetchEmptyPage).1
      ≠ { exSmallLog with hasMore := false, moreAttached := false } := by
  decide

/-- C4 (amended): when the underlying fetch fails (the recursive call
resolves to no log), both `more()` continuations return the prior log with
only `hasMore` cleared and the `more` continuation removed; every other
field is unchanged and no error propagates.  An empty page, by contrast,
takes the ordinary merge path. -/
theorem spec_C4_failed_fetch_terminates (cap : Nat) (log : GitLog) (arg : MoreArg)
    (fetch fetchP : Nat → Option String → Option GitLog)
    (hsat : moreUntilSatisfied log arg = false)
    (hf : fetch (getPagingLimit cap arg.num?) log.endingCursor = none)
    (hfP : fetchP (match arg.untilId? with
        | none => getPagingLimit cap arg.num?
        | some _ => 0) log.endingCursor = none) :
    getLogMoreBody cap log arg fetch
        = ({ log with hasMore := false, moreAttached := false }, true)
      ∧ getLogForPathMoreBody cap log arg fetchP
        = ({ log with hasMore := false, moreAttached := false }, true) := by
  exact ⟨by simp [getLogMoreBody, hsat, hf],
         by simp [getLogForPathMoreBody, hsat, hfP]⟩

/-- C4 witness: a concrete failing fetch terminates both continuations
gracefully. -/
theorem spec_C4_failed_fetch_terminates_witness :
    getLogMoreBody 100 exSmallLog (MoreArg.num 1) exFetchNone
        = ({ exSmallLog with hasMore := false, moreAttached := false }, true)
      ∧ getLogForPathMoreBody 100 exSmallLog (MoreArg.num 1) exFetchNone
        = ({ exSmallLog with hasMore := false, moreAttached := false }, true) :=
  spec_C4_failed_fetch_terminates 100 exSmallLog (MoreArg.num 1) exFetchNone exFetchNone
    rfl rfl rfl

/-- C8: on every successful `more()` fetch, the merged log's `endingCursor`
is the newly fetched page's cursor, its `limit` accumulates the prior budget
plus the clamped requested page size when no `until` boundary was given, and
is left unset when an `until` boundary was requested — in both `more()`
bodies. -/
theorem spec_C8_cursor_and_limit (cap : Nat) (log : GitLog) (arg : MoreArg)
    (fetch fetchP : Nat → Option String → Option GitLog) (moreLog moreLogP : GitLog)
    (hsat : moreUntilSatisfied log arg = false)
    (hf : fetch (getPagingLimit cap arg.num?) log.endingCursor = some moreLog)
    (hfP : fetchP (match arg.untilId? with
        | none => getPagingLimit cap arg.num?
        | some _ => 0) log.endingCursor = some moreLogP) :
    ((getLogMoreBody cap log arg fetch).1.endingCursor = moreLog.endingCursor
      ∧ (arg.untilId? = none →
          (getLogMoreBody cap log arg fetch).1.limit
            = some (log.limit.getD 0 + getPagingLimit cap arg.num?))
      ∧ (∀ u, arg.untilId? = some u → (getLogMoreBody cap log arg fetch).1.limit = none))
    ∧ ((getLogForPathMoreBody cap log arg fetchP).1.endingCursor = moreLogP.endingCursor
      ∧ (arg.untilId? = none →
          (getLogForPathMoreBody cap log arg fetchP).1.limit
            = some (log.limit.getD 0 + getPagingLimit cap arg.num?))
      ∧ (∀ u, arg.untilId? = some u →
          (getLogForPathMoreBody cap log arg fetchP).1.limit = none)) := by
  cases arg with
  | noArg =>
    simp only [MoreArg.untilId?] at hfP ⊢
    refine ⟨⟨?_, ?_, ?_⟩, ⟨?_, ?_, ?_⟩⟩ <;>
      simp [getLogMoreBody, getLogForPathMoreBody, hsat, hf, hfP, MoreArg.untilId?]
  | num n =>
    simp only [MoreArg.untilId?] at hfP ⊢
    refine ⟨⟨?_, ?_, ?_⟩, ⟨?_, ?_, ?_⟩⟩ <;>
      simp [getLogMoreBody, getLogForPathMoreBody, hsat, hf, hfP, MoreArg.untilId?]
  | untilId u =>
    simp only [MoreArg.untilId?] at hfP ⊢
    refine ⟨⟨?_, ?_, ?_⟩, ⟨?_, ?_, ?_⟩⟩ <;>
      simp [getLogMoreBody, getLogForPathMoreBody, hsat, hf, hfP, MoreArg.untilId?]

/-- C8 witness: a concrete `more(2)` on a page with an ending cursor. -/
theorem spec_C8_cursor_and_limit_witness :
    (((getLogMoreBody 100 exPriorLog (MoreArg.num 2) exFetchNext).1.endingCursor
          = exNextLog.endingCursor
      ∧ ((MoreArg.num 2).untilId? = none →
          (getLogMoreBody 100 exPriorLog (MoreArg.num 2) exFetchNext).1.limit
            = some (exPriorLog.limit.getD 0 + getPagingLimit 100 (MoreArg.num 2).num?))
      ∧ (∀ u, (MoreArg.num 2).untilId? = some u →
          (getLogMoreBody 100 exPriorLog (MoreArg.num 2) exFetchNext).1.limit = none))
    ∧ ((getLogForPathMoreBody 100 exPriorLog (MoreArg.num 2) exFetchNext).1.endingCursor
          = exNextLog.endingCursor
      ∧ ((MoreArg.num 2).untilId? = none →
          (getLogForPathMoreBody 100 exPriorLog (MoreArg.num 2) exFetchNext).1.limit
            = some (exPriorLog.limit.getD 0 + getPagingLimit 100 (MoreArg.num 2).num?))
      ∧ (∀ u, (MoreArg.num 2).untilId? = some u →
          (getLogForPathMoreBody 100 exPriorLog (MoreArg.num 2) exFetchNext).1.limit
            = none))) :=
  spec_C8_cursor_and_limit 100 exPriorLog (MoreArg.num 2) exFetchNext exFetchNext
    exNextLog exNextLog rfl rfl rfl

/-- C2 counterexample: merging the page keyed `[a,b,c]` with the overlapping
page keyed `[c,d,e]` stores the LATER page's entry under `c` — the entry
already present in the prior log is written a second time, contradicting the
claim. -/
theorem spec_C2_merge_union_cex :
    JsMap.get (getLogMoreBody 100 exPriorLog (MoreArg.num 3) exFetchNext).1.commits "c"
        = some (exCommit "c" "PageTwo")
      ∧ JsMap.get (getLogMoreBody 100 exPriorLog (MoreArg.num 3) exFetchNext).1.commits "c"
        ≠ some (exCommit "c" "PageOne") := by
  constructor
  · rfl
  · decide

/-- Computation of the JavaScript map-union of the two overlapping pages:
the duplicated key keeps its first position and takes the later value. -/
theorem ofList_overlap_abcde (ca cb cc1 cc2 cd ce : GitCommit) :
    JsMap.ofList [("a", ca), ("b", cb), ("c", cc1), ("c", cc2), ("d", cd), ("e", ce)]
      = [("a", ca), ("b", cb), ("c", cc2), ("d", cd), ("e", ce)] := by
  rfl

/-- C2 (amended): merging a prior log keyed `[a,b,c]` with a successfully
fetched next page keyed `[c,d,e]` yields a log whose keys are exactly
`[a,b,c,d,e]` in that order with `count = 5`; the overlapping id keeps the
prior log's position, but the entry stored under it is the later page's one
(the JavaScript `Map` union rewrites an existing key's value in place) — in
both `more()` bodies. -/
theorem spec_C2_merge_union (cap : Nat) (log moreLog : GitLog)
    (fetch fetchP : Nat → Option String → Option GitLog) (n : Nat)
    (ca cb cc1 cc2 cd ce : GitCommit)
    (hlc : log.commits = [("a", ca), ("b", cb), ("c", cc1)])
    (hmc : moreLog.commits = [("c", cc2), ("d", cd), ("e", ce)])
    (hf : fetch (getPagingLimit cap (some n)) log.endingCursor = some moreLog)
    (hfP : fetchP (getPagingLimit cap (some n)) log.endingCursor = some moreLog) :
    ((getLogMoreBody cap log (MoreArg.num n) fetch).1.commits.map Prod.fst
        = ["a", "b", "c", "d", "e"]
      ∧ (getLogMoreBody cap log (MoreArg.num n) fetch).1.count = 5
      ∧ JsMap.get (getLogMoreBody cap log (MoreArg.num n) fetch).1.commits "c" = some cc2)
    ∧ ((getLogForPathMoreBody cap log (MoreArg.num n) fetchP).1.commits.map Prod.fst
        = ["a", "b", "c", "d", "e"]
      ∧ (getLogForPathMoreBody cap log (MoreArg.num n) fetchP).1.count = 5
      ∧ JsMap.get (getLogForPathMoreBody cap log (MoreArg.num n) fetchP).1.commits "c"
          = some cc2) := by
  have hsat : moreUntilSatisfied log (MoreArg.num n) = false := rfl
  have hu : JsMap.ofList (log.commits ++ moreLog.commits)
      = [("a", ca), ("b", cb), ("c", cc2), ("d", cd), ("e", ce)] := by
    rw [hlc, hmc]
    exact ofList_overlap_abcde ca cb cc1 cc2 cd ce
  refine ⟨⟨?_, ?_, ?_⟩, ⟨?_, ?_, ?_⟩⟩ <;>
    simp only [getLogMoreBody, getLogForPathMoreBody, hsat, Bool.false_eq_true, if_false,
      MoreArg.num?, MoreArg.untilId?, hf, hfP, hu] <;> rfl

/-- C2 witness: the merge property evaluated at the concrete overlapping
pages. -/
theorem spec_C2_merge_union_witness :
    (((getLogMoreBody 100 exPriorLog (MoreArg.num 3) exFetchNext).1.commits.map Prod.fst
        = ["a", "b", "c", "d", "e"]
      ∧ (getLogMoreBody 100 exPriorLog (MoreArg.num 3) exFetchNext).1.count = 5
      ∧ JsMap.get (getLogMoreBody 100 exPriorLog (MoreArg.num 3) exFetchNext).1.commits "c"
          = some (exCommit "c" "PageTwo"))
    ∧ ((getLogForPathMoreBody 100 exPriorLog (MoreArg.num 3) exFetchNext).1.commits.map
          Prod.fst = ["a", "b", "c", "d", "e"]
      ∧ (getLogForPathMoreBody 100 exPriorLog (MoreArg.num 3) exFetchNext).1.count = 5
      ∧ JsMap.get
          (getLogForPathMoreBody 100 exPriorLog (MoreArg.num 3) exFetchNext).1.commits "c"
          = some (exCommit "c" "PageTwo"))) :=
  spec_C2_merge_union 100 exPriorLog exNextLog exFetchNext exFetchNext 3
    (exCommit "a" "A") (exCommit "b" "A") (exCommit "c" "PageOne")
    (exCommit "c" "PageTwo") (exCommit "d" "A") (exCommit "e" "A")
    rfl rfl rfl rfl

/-- Invariant of the log literal built by `getLog`. -/
theorem logInvariant_getLog (cap : Nat) (repoPath rev : Option String)
    (headRevision : String) (options : GitLogOptions)
    (outcome : Except String CommitsPage) (log : GitLog)
    (h : getLog cap repoPath rev headRevision options outcome = some log) :
    logInvariant log := by
  cases repoPath with
  | none => simp [getLog] at h
  | some rp =>
    cases outcome with
    | error e => simp [getLog] at h
    | ok page =>
      simp only [getLog, Option.some.injEq] at h
      subst h
      exact ⟨rfl, nodup_keys_buildCommitMap rp page.viewer page.values, fun hh => hh⟩

/-- Invariant of the log literal built by `getLogForPathCore`. -/
theorem logInvariant_getLogForPathCore (cap : Nat) (repoPath rev : Option String)
    (headRevision : String) (options : GitLogForPathOptions)
    (outcome : Except String CommitsPage) (log : GitLog)
    (h : getLogForPathCore cap repoPath rev headRevision options outcome = .ok (some log)) :
    logInvariant log := by
  cases repoPath with
  | none => simp [getLogForPathCore] at h
  | some rp =>
    cases outcome with
    | error e => simp [getLogForPathCore] at h
    | ok page =>
      simp only [getLogForPathCore, Except.ok.injEq, Option.some.injEq] at h
      subst h
      exact ⟨rfl, nodup_keys_buildCommitMap rp page.viewer page.values, fun hh => hh⟩

/-- Invariant of the partial-reconstruction slice of an invariant log. -/
theorem logInvariant_sliceLog (log : GitLog) (rev : String) (limit : Option Nat)
    (hinv : logInvariant log) : logInvariant (sliceLog log rev limit) :=
  ⟨rfl, JsMap.nodup_keys_ofList _, hinv.2.2⟩

/-- Invariant preservation of the `getLogMoreFn` continuation body. -/
theorem logInvariant_getLogMoreBody (cap : Nat) (log : GitLog) (arg : MoreArg)
    (fetch : Nat → Option String → Option GitLog) (hinv : logInvariant log) :
    logInvariant (getLogMoreBody cap log arg fetch).1 := by
  by_cases hsat : moreUntilSatisfied log arg = true
  · simpa [getLogMoreBody, hsat] using hinv
  · replace hsat : moreUntilSatisfied log arg = false := by
      revert hsat; cases moreUntilSatisfied log arg <;> simp
    cases hfetch : fetch (getPagingLimit cap arg.num?) log.endingCursor with
    | none =>
      simp only [getLogMoreBody, hsat, Bool.false_eq_true, if_false, hfetch]
      exact ⟨hinv.1, hinv.2.1, fun _ => rfl⟩
    | some moreLog =>
      simp only [getLogMoreBody, hsat, Bool.false_eq_true, if_false, hfetch]
      exact ⟨rfl, JsMap.nodup_keys_ofList _, fun hh => hh⟩

/-- Invariant preservation of the `getLogForPathMoreFn` continuation body. -/
theorem logInvariant_getLogForPathMoreBody (cap : Nat) (log : GitLog) (arg : MoreArg)
    (fetch : Nat → Option String → Option GitLog) (hinv : logInvariant log) :
    logInvariant (getLogForPathMoreBody cap log arg fetch).1 := by
  by_cases hsat : moreUntilSatisfied log arg = true
  · simpa [getLogForPathMoreBody, hsat] using hinv
  · replace hsat : moreUntilSatisfied log arg = false := by
      revert hsat; cases moreUntilSatisfied log arg <;> simp
    cases hfetch : fetch (match arg.untilId? with
        | none => getPagingLimit cap arg.num?
        | some _ => 0) log.endingCursor with
    | none =>
      simp only [getLogForPathMoreBody, hsat, Bool.false_eq_true, if_false, hfetch]
      exact ⟨hinv.1, hinv.2.1, fun _ => rfl⟩
    | some moreLog =>
      simp only [getLogForPathMoreBody, hsat, Bool.false_eq_true, if_false, hfetch]
      exact ⟨rfl, JsMap.nodup_keys_ofList _, fun hh => hh⟩

/-- Invariant preservation of the `searchCommitsCore` continuation body. -/
theorem logInvariant_searchCommitsMoreBody (cap : Nat) (log : GitLog)
    (limitArg : Option Nat) (fetch : Nat → Option String → Option GitLog)
    (hinv : logInvariant log) :
    logInvariant (searchCommitsMoreBody cap log limitArg fetch).1 := by
  cases hfetch : fetch (getPagingLimit cap limitArg) log.endingCursor with
  | none =>
    simp only [searchCommitsMoreBody, hfetch]
    exact ⟨hinv.1, hinv.2.1, fun _ => rfl⟩
  | some moreLog =>
    simp only [searchCommitsMoreBody, hfetch]
    exact ⟨rfl, JsMap.nodup_keys_ofList _, fun hh => hh⟩

/-- C5: every log the provider constructs — by `getLog`, by
`getLogForPathCore`, by the cache's partial reconstruction, by
`searchCommits` (single-commit and search-page logs), and by every `more()`
continuation body applied to a log that itself satisfies the invariants —
has `count` equal to its commit-map size, no id appearing twice, and no
`more` continuation whenever `hasMore` is false.  (A cache replay returns a
log previously constructed by one of these, so the conjunction covers every
returned log.) -/
theorem spec_C5_log_invariants :
    (∀ cap repoPath rev headRevision options outcome log,
        getLog cap repoPath rev headRevision options outcome = some log →
          logInvariant log)
    ∧ (∀ cap repoPath rev headRevision options outcome log,
        getLogForPathCore cap repoPath rev headRevision options outcome
            = .ok (some log) → logInvariant log)
    ∧ (∀ log rev limit, logInvariant log → logInvariant (sliceLog log rev limit))
    ∧ (∀ cap log arg fetch, logInvariant log →
        logInvariant (getLogMoreBody cap log arg fetch).1)
    ∧ (∀ cap log arg fetch, logInvariant log →
        logInvariant (getLogForPathMoreBody cap log arg fetch).1)
    ∧ (∀ repoPath commit, logInvariant (searchSingleCommitLog repoPath commit))
    ∧ (∀ repoPath viewerLabel limit result,
        logInvariant (searchCommitsLog repoPath viewerLabel limit result))
    ∧ (∀ cap log limitArg fetch, logInvariant log →
        logInvariant (searchCommitsMoreBody cap log limitArg fetch).1) :=
  ⟨logInvariant_getLog,
   logInvariant_getLogForPathCore,
   logInvariant_sliceLog,
   logInvariant_getLogMoreBody,
   logInvariant_getLogForPathMoreBody,
   fun repoPath commit => ⟨rfl, by simp [searchSingleCommitLog], fun _ => rfl⟩,
   fun repoPath viewerLabel limit result =>
     ⟨rfl, nodup_keys_buildCommitMap repoPath (some viewerLabel) result.values,
      fun hh => hh⟩,
   logInvariant_searchCommitsMoreBody⟩

/-- C5 witness: the invariants evaluated on the concrete merge of the two
overlapping pages. -/
theorem spec_C5_log_invariants_witness :
    logInvariant (getLogMoreBody 100 exPriorLog (MoreArg.num 3) exFetchNext).1 :=
  spec_C5_log_invariants.2.2.2.1 100 exPriorLog (MoreArg.num 3) exFetchNext
    ⟨rfl, by decide, by decide⟩

/-- The fetch-and-cache tail always records the options it fetched with. -/
theorem getLogForPathFetch_fetchedWith (key : Option String)
    (docState : Option GitDocumentState) (options : GitLogForPathOptions)
    (coreOutcome : Except String (Option GitLog)) :
    (getLogForPathFetch key docState options coreOutcome).fetchedWith = some options := by
  cases key <;> cases coreOutcome <;> rfl

/-- The adjusted options always carry `all = false` and `renames = false`. -/
theorem adjustedLogForPathOptions_forced (cap : Nat) (relativePath : String)
    (treeEntryType : Option String) (o : GitLogForPathOptions) :
    (adjustedLogForPathOptions cap relativePath treeEntryType o).all = false
      ∧ (adjustedLogForPathOptions cap relativePath treeEntryType o).renames = false := by
  simp only [adjustedLogForPathOptions, effectiveLogForPathOptions]
  split
  · exact ⟨rfl, rfl⟩
  · split
    · exact ⟨rfl, rfl⟩
    · exact ⟨rfl, rfl⟩

/-- Every fetch issued by `getLogForPath` uses the adjusted options. -/
theorem getLogForPath_fetchedWith (cap : Nat) (repoPath : Option String)
    (relativePath : String) (rev : Option String) (options0 : GitLogForPathOptions)
    (treeEntryType : Option String) (docState : Option GitDocumentState)
    (coreOutcome : Except String (Option GitLog)) :
    (getLogForPath cap repoPath relativePath rev options0 treeEntryType docState
        coreOutcome).fetchedWith = none
      ∨ (getLogForPath cap repoPath relativePath rev options0 treeEntryType docState
        coreOutcome).fetchedWith
          = some (adjustedLogForPathOptions cap relativePath treeEntryType options0) := by
  cases repoPath with
  | none => exact Or.inl rfl
  | some rp =>
    simp only [getLogForPath]
    repeat
      first
      | exact Or.inl rfl
      | exact Or.inr (getLogForPathFetch_fetchedWith _ _ _ _)
      | split

/-- C10: whatever options the caller passes, the effective options
`getLogForPath` hands to the core fetch (the same record its cache
fingerprint is derived from) always carry `all = false` and
`renames = false`. -/
theorem spec_C10_forced_options (cap : Nat) (repoPath : Option String)
    (relativePath : String) (rev : Option String) (options0 : GitLogForPathOptions)
    (treeEntryType : Option String) (docState : Option GitDocumentState)
    (coreOutcome : Except String (Option GitLog)) (eff : GitLogForPathOptions)
    (h : (getLogForPath cap repoPath relativePath rev options0 treeEntryType docState
        coreOutcome).fetchedWith = some eff) :
    eff.all = false ∧ eff.renames = false := by
  rcases getLogForPath_fetchedWith cap repoPath relativePath rev options0 treeEntryType
      docState coreOutcome with h' | h'
  · rw [h'] at h; exact absurd h (by simp)
  · rw [h'] at h
    obtain rfl : eff = adjustedLogForPathOptions cap relativePath treeEntryType options0 :=
      by simpa using h.symm
    exact adjustedLogForPathOptions_forced cap relativePath treeEntryType options0

/-- C10 witness: a caller-requested all-branches, follow-renames query is
silently restricted on a concrete fetch. -/
theorem spec_C10_forced_options_witness :
    (adjustedLogForPathOptions 100 "src/file.ts" none
          { all := true, renames := true, limit := some 5 }).all = false
      ∧ (adjustedLogForPathOptions 100 "src/file.ts" none
          { all := true, renames := true, limit := some 5 }).renames = false :=
  spec_C10_forced_options 100 (some "github/repo") "src/file.ts" none
    { all := true, renames := true, limit := some 5 } none none (.ok none)
    (adjustedLogForPathOptions 100 "src/file.ts" none
      { all := true, renames := true, limit := some 5 })
    (by decide)

/-- C1: when the document cache holds a fully fetched whole-file log `L`
containing the requested revision and no entry for the exact query key,
`getLogForPath(repoPath, path, rev, {limit: n})` answers from the cache: its
commits are exactly the contiguous entries of `L` from `rev` (inclusive)
capped by the clamped page size — hence at most `n` of them — its `count` is
the new map's size, the cache state is untouched and the core fetch is never
issued (the conclusion holds for every fetch outcome whatsoever). -/
theorem spec_C1_partial_reconstruction (cap : Nat) (repoPath relativePath r : String)
    (n : Nat) (treeEntryType : Option String) (st : GitDocumentState) (L : GitLog)
    (em : Option String) (coreOutcome : Except String (Option GitLog))
    (hpath : (repoPath == relativePath) = false)
    (hglob : isFolderGlob relativePath = false)
    (htree : (treeEntryType == some "tree") = false)
    (hmiss : JsMap.get st (logForPathCacheKey (some r)
        (adjustedLogForPathOptions cap relativePath treeEntryType
          { limit := some n })) = none)
    (hwhole : JsMap.get st (wholeFileCacheKey false)
        = some { item := some L, errorMessage := em })
    (hL : L.hasMore = false)
    (hhas : JsMap.has L.commits r = true)
    (hnd : (L.commits.map Prod.fst).Nodup) :
    getLogForPath cap (some repoPath) relativePath (some r) { limit := some n }
        treeEntryType (some st) coreOutcome
      = { result := .ok (some (sliceLog L r (some (getPagingLimit cap (some n))))),
          state := some st, fetchedWith := none }
    ∧ (sliceLog L r (some (getPagingLimit cap (some n)))).commits
        = (L.commits.dropWhile (fun p => !(p.1 == r))).take (getPagingLimit cap (some n))
    ∧ (sliceLog L r (some (getPagingLimit cap (some n)))).count
        = (sliceLog L r (some (getPagingLimit cap (some n)))).commits.length
    ∧ (sliceLog L r (some (getPagingLimit cap (some n)))).commits.length ≤ n := by
  have hadj : adjustedLogForPathOptions cap relativePath treeEntryType
      ({ limit := some n } : GitLogForPathOptions)
      = { isFolder := some false, limit := some (getPagingLimit cap (some n)) } := by
    simp [adjustedLogForPathOptions, effectiveLogForPathOptions, hglob, htree]
  rw [hadj] at hmiss
  refine ⟨?_, ?_, ?_, ?_⟩
  · simp only [getLogForPath, hpath, Bool.false_eq_true, if_false, hadj, useCaching,
      Option.isSome_some, Bool.true_or, if_true, wholeFileCacheKey]
    simp only [ne_eq, Option.some.injEq, Bool.false_eq_true, not_false_eq_true,
      and_self, and_true, true_and, if_true, reduceCtorEq, not_false_iff]
    have hwhole' : JsMap.get st ("log" ++ "")
        = some { item := some L, errorMessage := em } := hwhole
    simp only [hmiss, hwhole', hL, hhas, Bool.not_false, Bool.and_self, Bool.true_and,
      Bool.and_true, if_true]
  · show JsMap.ofList (sliceEntries r (some (getPagingLimit cap (some n))) L.commits true 0)
      = (L.commits.dropWhile (fun p => !(p.1 == r))).take (getPagingLimit cap (some n))
    rw [ofList_sliceEntries_eq r (getPagingLimit cap (some n)) L.commits hnd]
    exact sliceEntries_eq_dropWhile_take r (getPagingLimit cap (some n)) L.commits
  · rfl
  · have h1 : (sliceLog L r (some (getPagingLimit cap (some n)))).commits.length
        ≤ getPagingLimit cap (some n) := by
      show (JsMap.ofList (sliceEntries r (some (getPagingLimit cap (some n)))
          L.commits true 0)).length ≤ getPagingLimit cap (some n)
      rw [ofList_sliceEntries_eq r (getPagingLimit cap (some n)) L.commits hnd,
        sliceEntries_eq_dropWhile_take]
      exact List.length_take_le _ _
    exact h1.trans (Nat.min_le_right cap n)

/-- C1 witness: the five-commit cached log sliced at `c3` with limit 2. -/
theorem spec_C1_partial_reconstruction_witness :
    (getLogForPath 100 (some "github/repo") "src/file.ts" (some "c3")
        { limit := some 2 } none (some exDocState) (.ok none)
      = { result := .ok (some (sliceLog exWholeFileLog "c3"
              (some (getPagingLimit 100 (some 2))))),
          state := some exDocState, fetchedWith := none }
    ∧ (sliceLog exWholeFileLog "c3" (some (getPagingLimit 100 (some 2)))).commits
        = (exWholeFileLog.commits.dropWhile (fun p => !(p.1 == "c3"))).take
            (getPagingLimit 100 (some 2))
    ∧ (sliceLog exWholeFileLog "c3" (some (getPagingLimit 100 (some 2)))).count
        = (sliceLog exWholeFileLog "c3" (some (getPagingLimit 100 (some 2)))).commits.length
    ∧ (sliceLog exWholeFileLog "c3"
          (some (getPagingLimit 100 (some 2)))).commits.length ≤ 2) :=
  spec_C1_partial_reconstruction 100 "github/repo" "src/file.ts" "c3" 2 none
    exDocState exWholeFileLog none (.ok none)
    (by decide) (by decide) (by decide) (by decide) (by decide) (by decide)
    (by decide) (by decide)

/-- C6: for a cacheable path-scoped query (no authors/cursor/filters/range/
since/until, non-folder path) that misses the cache, a rejecting core fetch
overwrites the query's cache key with the already-resolved `emptyPromise`
entry carrying the failure's message, and an immediately repeated identical
query replays that empty result from the cache without issuing the core
fetch again (whatever its outcome would have been). -/
theorem spec_C6_negative_cache (cap : Nat) (repoPath relativePath : String)
    (rev : Option String) (options0 : GitLogForPathOptions)
    (treeEntryType : Option String) (st : GitDocumentState) (msg : String)
    (coreOutcome2 : Except String (Option GitLog))
    (hpath : (repoPath == relativePath) = false)
    (hglob : isFolderGlob relativePath = false)
    (hfold : options0.isFolder = some false)
    (hauth : options0.authors = none)
    (hcur : options0.cursor = none)
    (hfil : options0.filters = none)
    (hran : options0.range = none)
    (hsin : options0.since = none)
    (hunt : options0.untilRev = none)
    (hmiss : JsMap.get st (logForPathCacheKey rev
        (adjustedLogForPathOptions cap relativePath treeEntryType options0)) = none)
    (hwhole : JsMap.get st (wholeFileCacheKey false) = none) :
    getLogForPath cap (some repoPath) relativePath rev options0 treeEntryType
        (some st) (.error msg)
      = { result := .ok none,
          state := some (JsMap.set
            (JsMap.set st
              (logForPathCacheKey rev
                (adjustedLogForPathOptions cap relativePath treeEntryType options0))
              { item := emptyPromise })
            (logForPathCacheKey rev
              (adjustedLogForPathOptions cap relativePath treeEntryType options0))
            { item := emptyPromise, errorMessage := some msg }),
          fetchedWith := some (adjustedLogForPathOptions cap relativePath
            treeEntryType options0) }
    ∧ getLogForPath cap (some repoPath) relativePath rev options0 treeEntryType
        (some (JsMap.set
          (JsMap.set st
            (logForPathCacheKey rev
              (adjustedLogForPathOptions cap relativePath treeEntryType options0))
            { item := emptyPromise })
          (logForPathCacheKey rev
            (adjustedLogForPathOptions cap relativePath treeEntryType options0))
          { item := emptyPromise, errorMessage := some msg })) coreOutcome2
      = { result := .ok emptyPromise,
          state := some (JsMap.set
            (JsMap.set st
              (logForPathCacheKey rev
                (adjustedLogForPathOptions cap relativePath treeEntryType options0))
              { item := emptyPromise })
            (logForPathCacheKey rev
              (adjustedLogForPathOptions cap relativePath treeEntryType options0))
            { item := emptyPromise, errorMessage := some msg }),
          fetchedWith := none } := by
  have hadj : adjustedLogForPathOptions cap relativePath treeEntryType options0
      = effectiveLogForPathOptions cap options0 := by
    simp [adjustedLogForPathOptions, hglob, effectiveLogForPathOptions, hfold]
  rw [hadj] at hmiss
  have hIsF : (effectiveLogForPathOptions cap options0).isFolder = some false := by
    simp [effectiveLogForPathOptions, hfold]
  have hA : (effectiveLogForPathOptions cap options0).authors = none := by
    simp [effectiveLogForPathOptions, hauth]
  have hC : (effectiveLogForPathOptions cap options0).cursor = none := by
    simp [effectiveLogForPathOptions, hcur]
  have hF : (effectiveLogForPathOptions cap options0).filters = none := by
    simp [effectiveLogForPathOptions, hfil]
  have hR : (effectiveLogForPathOptions cap options0).range = none := by
    simp [effectiveLogForPathOptions, hran]
  have hS : (effectiveLogForPathOptions cap options0).since = none := by
    simp [effectiveLogForPathOptions, hsin]
  have hU : (effectiveLogForPathOptions cap options0).untilRev = none := by
    simp [effectiveLogForPathOptions, hunt]
  have hLim : (effectiveLogForPathOptions cap options0).limit
      = some (getPagingLimit cap options0.limit) := rfl
  have hRen : (effectiveLogForPathOptions cap options0).renames = false := rfl
  have hget2 : JsMap.get
      (JsMap.set
        (JsMap.set st (logForPathCacheKey rev (effectiveLogForPathOptions cap options0))
          { item := emptyPromise })
        (logForPathCacheKey rev (effectiveLogForPathOptions cap options0))
        { item := emptyPromise, errorMessage := some msg })
      (logForPathCacheKey rev (effectiveLogForPathOptions cap options0))
      = some { item := emptyPromise, errorMessage := some msg } :=
    JsMap.get_set_self _ _ _
  constructor
  · simp only [getLogForPath, hpath, Bool.false_eq_true, if_false, hadj, useCaching,
      hIsF, hA, hC, hF, hR, hS, hU, hLim, hRen]
    simp only [ne_eq, Option.some.injEq, Bool.false_eq_true, not_false_eq_true,
      and_self, and_true, true_and, if_true, reduceCtorEq, not_false_iff,
      Option.isSome_some, Bool.or_true]
    simp only [hmiss, hwhole]
    rfl
  · simp only [getLogForPath, hpath, Bool.false_eq_true, if_false, hadj, useCaching,
      hIsF, hA, hC, hF, hR, hS, hU, hLim, hRen]
    simp only [ne_eq, Option.some.injEq, Bool.false_eq_true, not_false_eq_true,
      and_self, and_true, true_and, if_true, reduceCtorEq, not_false_iff,
      Option.isSome_some, Bool.or_true]
    simp only [hget2]

/-- C6 witness: a concrete rejected path-log fetch on an empty document
cache, replayed by the repeat query without a second fetch. -/
theorem spec_C6_negative_cache_witness :
    getLogForPath 100 (some "github/repo") "src/b.ts" none { isFolder := some false }
        none (some []) (.error "HttpError: 404")
      = { result := .ok none,
          state := some (JsMap.set
            (JsMap.set []
              (logForPathCacheKey none
                (adjustedLogForPathOptions 100 "src/b.ts" none { isFolder := some false }))
              { item := emptyPromise })
            (logForPathCacheKey none
              (adjustedLogForPathOptions 100 "src/b.ts" none { isFolder := some false }))
            { item := emptyPromise, errorMessage := some "HttpError: 404" }),
          fetchedWith := some (adjustedLogForPathOptions 100 "src/b.ts" none
            { isFolder := some false }) }
    ∧ getLogForPath 100 (some "github/repo") "src/b.ts" none { isFolder := some false }
        none (some (JsMap.set
          (JsMap.set []
            (logForPathCacheKey none
              (adjustedLogForPathOptions 100 "src/b.ts" none { isFolder := some false }))
            { item := emptyPromise })
          (logForPathCacheKey none
            (adjustedLogForPathOptions 100 "src/b.ts" none { isFolder := some false }))
          { item := emptyPromise, errorMessage := some "HttpError: 404" }))
        (.ok (some exSmallLog))
      = { result := .ok emptyPromise,
          state := some (JsMap.set
            (JsMap.set []
              (logForPathCacheKey none
                (adjustedLogForPathOptions 100 "src/b.ts" none { isFolder := some false }))
              { item := emptyPromise })
            (logForPathCacheKey none
              (adjustedLogForPathOptions 100 "src/b.ts" none { isFolder := some false }))
            { item := emptyPromise, errorMessage := some "HttpError: 404" }),
          fetchedWith := none } :=
  spec_C6_negative_cache 100 "github/repo" "src/b.ts" none { isFolder := some false }
    none [] "HttpError: 404" (.ok (some exSmallLog))
    (by decide) (by decide) rfl rfl rfl rfl rfl rfl rfl (by decide) (by decide)
